import Mathlib

/-!
Verification of the urlencoded decoder (Iron urlencoded plugin, src/lib.rs).

The decoder turns a percent-encoded query string (from a URL query component
or an HTTP body) into a map from parameter name to the ordered list of values.
We embed the code shallowly: Rust strings and byte slices become lists of
bytes (each a Nat below 256), the HashMap from String to Vec of String
becomes an association list from byte list to list of byte lists (the spec
declares key order insignificant, so an insertion-ordered association list is
a faithful model of the unordered hash map), and fallible functions return
Except.
-/

namespace Urlencoded

/-- A byte string: Rust str / String / byte slices become lists of Nat. -/
abbrev Bytes := List Nat

/-- The decoded mapping: HashMap from String to Vec of String, modelled as an
association list keyed by byte string, in first-insertion order. -/
abbrev QueryMap := List (Bytes × List Bytes)

/-- Modelled from the spec: the opaque error produced by the external
body-acquisition collaborator (the bodyparser crate's BodyError), which is not
part of this repository; the decoder only stores and re-surfaces it, so an
abstract tag suffices. -/
structure BodyparserError where
  tag : Nat
deriving DecidableEq

/-- The error enum UrlDecodingError of src/lib.rs. -/
inductive UrlDecodingError where
  /-- An error parsing the request body: wraps the collaborator's error. -/
  | BodyError (err : BodyparserError)
  /-- An empty query string, either in body or url query. -/
  | EmptyQuery
  /-- A malformed query string, either in body or url query. -/
  | MalformedQuery
deriving DecidableEq

/-- The cause accessor of the StdError impl for UrlDecodingError:
Some for BodyError, None otherwise. -/
def UrlDecodingError.cause : UrlDecodingError → Option BodyparserError
  | .BodyError err => some err
  | _ => none

/-- Result type for decoding query parameters. -/
abbrev QueryResult := Except UrlDecodingError QueryMap

/-- True on the bytes of ASCII hex digits 0-9, a-f, A-F
(char::to_digit(16) succeeding). -/
def isHexDigit (b : Nat) : Bool :=
  (48 ≤ b && b ≤ 57) || (65 ≤ b && b ≤ 70) || (97 ≤ b && b ≤ 102)

/-- Numeric value of an ASCII hex digit byte. -/
def hexVal (b : Nat) : Nat :=
  if 48 ≤ b && b ≤ 57 then b - 48
  else if 65 ≤ b && b ≤ 70 then b - 55
  else b - 87

/-- Worker for percent_decode, structurally recursive on a fuel equal to the
length of the byte list (each step consumes as much fuel as input, so the
final catch-all arm is never reached from the wrapper). -/
def percentDecodeAux : Nat → Bytes → Bytes
  | fuel + 3, 37 :: h :: l :: rest =>
    if isHexDigit h && isHexDigit l then
      (16 * hexVal h + hexVal l) :: percentDecodeAux fuel rest
    else
      37 :: percentDecodeAux (fuel + 2) (h :: l :: rest)
  | fuel + 1, b :: rest => b :: percentDecodeAux fuel rest
  | _, l => l

/-- Modelled from the spec: percent_decode of the url crate (not part of this
repository). Each percent sign followed by two hex digits becomes the byte
they denote; a percent sign not followed by two hex digits is passed through
literally and scanning resumes at the byte after it; all other bytes pass
through unchanged. -/
def percent_decode (data : Bytes) : Bytes :=
  percentDecodeAux data.length data

/-- A UTF-8 continuation byte: 0x80 to 0xBF. -/
def isCont (b : Nat) : Bool := 128 ≤ b && b ≤ 191

/-- Worker for validateUtf8, structurally recursive on a fuel bounded below
by the number of encoded characters (the wrapper passes the byte length, so
the zero-fuel arm is never reached from it). -/
def validateUtf8Aux : Nat → Bytes → Bool
  | _, [] => true
  | 0, _ :: _ => false
  | fuel + 1, b :: rest =>
    if b ≤ 127 then validateUtf8Aux fuel rest
    else if 194 ≤ b && b ≤ 223 then
      match rest with
      | c1 :: rest1 => isCont c1 && validateUtf8Aux fuel rest1
      | [] => false
    else if b = 224 then
      match rest with
      | c1 :: c2 :: rest2 =>
        (160 ≤ c1 && c1 ≤ 191) && isCont c2 && validateUtf8Aux fuel rest2
      | _ => false
    else if (225 ≤ b && b ≤ 236) || b = 238 || b = 239 then
      match rest with
      | c1 :: c2 :: rest2 => isCont c1 && isCont c2 && validateUtf8Aux fuel rest2
      | _ => false
    else if b = 237 then
      match rest with
      | c1 :: c2 :: rest2 =>
        (128 ≤ c1 && c1 ≤ 159) && isCont c2 && validateUtf8Aux fuel rest2
      | _ => false
    else if b = 240 then
      match rest with
      | c1 :: c2 :: c3 :: rest3 =>
        (144 ≤ c1 && c1 ≤ 191) && isCont c2 && isCont c3 && validateUtf8Aux fuel rest3
      | _ => false
    else if 241 ≤ b && b ≤ 243 then
      match rest with
      | c1 :: c2 :: c3 :: rest3 =>
        isCont c1 && isCont c2 && isCont c3 && validateUtf8Aux fuel rest3
      | _ => false
    else if b = 244 then
      match rest with
      | c1 :: c2 :: c3 :: rest3 =>
        (128 ≤ c1 && c1 ≤ 143) && isCont c2 && isCont c3 && validateUtf8Aux fuel rest3
      | _ => false
    else false

/-- Modelled from the spec: strict UTF-8 validity of a byte sequence, as
checked by decode_utf8 (str::from_utf8) on the percent-decoded bytes. -/
def validateUtf8 (data : Bytes) : Bool :=
  validateUtf8Aux data.length data

/-- Replace each literal plus byte (0x2B) by a space byte (0x20), as
form_urlencoded does inside each key or value part. -/
def replace_plus (part : Bytes) : Bytes :=
  part.map (fun b => if b = 43 then 32 else b)

/-- The per-part decoding of form_urlencoded: replace plus by space, then
percent-decode the part bytes. -/
def form_decode (part : Bytes) : Bytes :=
  percent_decode (replace_plus part)

/-- Split a byte string into the segments delimited by the byte sep;
n delimiters yield n + 1 segments, empty ones included. -/
def splitSegments (sep : Nat) : Bytes → List Bytes
  | [] => [[]]
  | b :: rest =>
    if b = sep then [] :: splitSegments sep rest
    else
      match splitSegments sep rest with
      | [] => [[b]]
      | s :: ss => (b :: s) :: ss

/-- Split a segment at its first occurrence of the byte sep into the part
before and the part after; with no occurrence the second part is empty
(splitn(2, sep) with unwrap_or of the empty slice). -/
def splitFirst (sep : Nat) : Bytes → Bytes × Bytes
  | [] => ([], [])
  | b :: rest =>
    if b = sep then ([], rest)
    else
      let p := splitFirst sep rest
      (b :: p.1, p.2)

/-- Modelled from the spec: form_urlencoded::parse of the url crate (not part
of this repository). Split the input on the ampersand byte, skip empty
segments, split each remaining segment at its first equals byte into key and
value (no equals gives an empty value), and apply the per-part decoding
(plus to space, then percent-decoding) to each part. -/
def form_urlencoded_parse (input : Bytes) : List (Bytes × Bytes) :=
  (splitSegments 38 input).filterMap (fun seg =>
    if seg = [] then none
    else
      let p := splitFirst 61 seg
      some (form_decode p.1, form_decode p.2))

/-- One grouping step: the entry match of combine_duplicates. If the key is
already present append the value to its vector (Occupied), otherwise insert a
fresh one-element vector (Vacant). -/
def insertPair (m : QueryMap) (k : Bytes) (v : Bytes) : QueryMap :=
  match m with
  | [] => [(k, [v])]
  | (k1, vs) :: rest =>
    if k1 = k then (k1, vs ++ [v]) :: rest
    else (k1, vs) :: insertPair rest k v

/-- combine_duplicates of src/lib.rs: fold the (key, value) pairs in order
into the map, appending to an existing key's vector or creating a new
one-element vector. -/
def combine_duplicates (q : List (Bytes × Bytes)) : QueryMap :=
  q.foldl (fun m kv => insertPair m kv.1 kv.2) []

/-- create_param_hashmap of src/lib.rs: reject the empty input with
EmptyQuery; percent-decode the input bytes and reject invalid UTF-8 with
MalformedQuery; otherwise parse the decoded bytes as form-urlencoded pairs
and group duplicates. -/
def create_param_hashmap (data : Bytes) : QueryResult :=
  if data.isEmpty then .error UrlDecodingError.EmptyQuery
  else if validateUtf8 (percent_decode data) then
    .ok (combine_duplicates (form_urlencoded_parse (percent_decode data)))
  else .error UrlDecodingError.MalformedQuery

/-- The eval of the Plugin impl for UrlEncodedQuery: decode the query
component of the URL when present, else fail with EmptyQuery. -/
def urlEncodedQuery_eval (queryComponent : Option Bytes) : QueryResult :=
  match queryComponent with
  | some q => create_param_hashmap q
  | none => .error UrlDecodingError.EmptyQuery

/-- The eval of the Plugin impl for UrlEncodedBody: the collaborator hands
either an extraction error or an optional raw body; an error becomes
BodyError, a missing body becomes the empty string, and the body text goes to
create_param_hashmap. -/
def urlEncodedBody_eval (rawBody : Except BodyparserError (Option Bytes)) : QueryResult :=
  match rawBody with
  | .error e => .error (UrlDecodingError.BodyError e)
  | .ok x => create_param_hashmap (x.getD [])

/-- The bytes of an ASCII string literal, for stating the concrete test
inputs (all the examples are ASCII, where code point and byte coincide). -/
def strBytes (s : String) : Bytes :=
  s.data.map Char.toNat

/-- First-match lookup of the value vector stored under a key, the empty list
when the key is absent. -/
def lookupVals (m : QueryMap) (k : Bytes) : List Bytes :=
  match m with
  | [] => []
  | (k1, vs) :: rest => if k1 = k then vs else lookupVals rest k

/-- The keys of a map, in entry order. -/
def keysOf (m : QueryMap) : List Bytes :=
  m.map Prod.fst

/-- The values carried by the occurrences of a key among a pair list, in
left-to-right order. -/
def valuesOf (k : Bytes) (q : List (Bytes × Bytes)) : List Bytes :=
  (q.filter (fun kv => kv.1 == k)).map Prod.snd

theorem lookupVals_insertPair_self (m : QueryMap) (k v : Bytes) :
    lookupVals (insertPair m k v) k = lookupVals m k ++ [v] := by
  induction m with
  | nil => simp [insertPair, lookupVals]
  | cons e rest ih =>
    obtain ⟨k1, vs⟩ := e
    by_cases h : k1 = k
    · subst h
      simp [insertPair, lookupVals]
    · simp [insertPair, lookupVals, h, ih]

theorem lookupVals_insertPair_ne (m : QueryMap) (k v q1 : Bytes) (h : k ≠ q1) :
    lookupVals (insertPair m k v) q1 = lookupVals m q1 := by
  induction m with
  | nil => simp [insertPair, lookupVals, h]
  | cons e rest ih =>
    obtain ⟨k1, vs⟩ := e
    by_cases h1 : k1 = k
    · subst h1
      simp [insertPair, lookupVals, h]
    · simp [insertPair, lookupVals, h1, ih]

theorem valuesOf_cons (k : Bytes) (kv : Bytes × Bytes) (q : List (Bytes × Bytes)) :
    valuesOf k (kv :: q) =
      if kv.1 = k then kv.2 :: valuesOf k q else valuesOf k q := by
  by_cases h : kv.1 = k <;> simp [valuesOf, List.filter_cons, h]

theorem lookupVals_foldl_insertPair (q : List (Bytes × Bytes)) (k : Bytes) :
    ∀ m0 : QueryMap,
      lookupVals (q.foldl (fun m kv => insertPair m kv.1 kv.2) m0) k
        = lookupVals m0 k ++ valuesOf k q := by
  induction q with
  | nil =>
    intro m0
    simp [valuesOf]
  | cons kv rest ih =>
    intro m0
    simp only [List.foldl_cons]
    rw [ih, valuesOf_cons]
    by_cases h : kv.1 = k
    · rw [if_pos h, ← h, lookupVals_insertPair_self]
      simp
    · rw [if_neg h, lookupVals_insertPair_ne m0 kv.1 kv.2 k h]

theorem keysOf_insertPair_mem (m : QueryMap) (k v : Bytes)
    (h : k ∈ keysOf m) : keysOf (insertPair m k v) = keysOf m := by
  induction m with
  | nil => simp [keysOf] at h
  | cons e rest ih =>
    obtain ⟨k1, vs⟩ := e
    by_cases h1 : k1 = k
    · subst h1
      simp [insertPair, keysOf]
    · have hrest : k ∈ keysOf rest := by
        rcases List.mem_cons.mp h with h2 | h2
        · exact absurd h2.symm h1
        · exact h2
      have hstep : insertPair ((k1, vs) :: rest) k v = (k1, vs) :: insertPair rest k v := by
        simp [insertPair, h1]
      rw [hstep]
      show k1 :: keysOf (insertPair rest k v) = k1 :: keysOf rest
      rw [ih hrest]

theorem keysOf_insertPair_not_mem (m : QueryMap) (k v : Bytes)
    (h : k ∉ keysOf m) : keysOf (insertPair m k v) = keysOf m ++ [k] := by
  induction m with
  | nil => simp [insertPair, keysOf]
  | cons e rest ih =>
    obtain ⟨k1, vs⟩ := e
    have h1 : ¬(k1 = k) := by
      intro hh
      refine h ?_
      show k ∈ k1 :: keysOf rest
      rw [hh]
      exact List.mem_cons_self _ _
    have hrest : k ∉ keysOf rest := by
      intro hh
      refine h ?_
      show k ∈ k1 :: keysOf rest
      exact List.mem_cons_of_mem _ hh
    have hstep : insertPair ((k1, vs) :: rest) k v = (k1, vs) :: insertPair rest k v := by
      simp [insertPair, h1]
    rw [hstep]
    show k1 :: keysOf (insertPair rest k v) = k1 :: (keysOf rest ++ [k])
    rw [ih hrest]

theorem nodup_keysOf_insertPair (m : QueryMap) (k v : Bytes)
    (h : (keysOf m).Nodup) : (keysOf (insertPair m k v)).Nodup := by
  by_cases hk : k ∈ keysOf m
  · rw [keysOf_insertPair_mem m k v hk]
    exact h
  · rw [keysOf_insertPair_not_mem m k v hk]
    simp [List.nodup_append, h, hk]

theorem nodup_keysOf_foldl_insertPair (q : List (Bytes × Bytes)) :
    ∀ m0 : QueryMap, (keysOf m0).Nodup →
      (keysOf (q.foldl (fun m kv => insertPair m kv.1 kv.2) m0)).Nodup := by
  induction q with
  | nil => intro m0 h; simpa using h
  | cons kv rest ih =>
    intro m0 h
    simp only [List.foldl_cons]
    exact ih _ (nodup_keysOf_insertPair _ _ _ h)

theorem create_param_hashmap_ok_eq (data : Bytes) (m : QueryMap)
    (h : create_param_hashmap data = .ok m) :
    m = combine_duplicates (form_urlencoded_parse (percent_decode data)) := by
  unfold create_param_hashmap at h
  split at h
  · simp at h
  · split at h
    · exact (Except.ok.inj h).symm
    · simp at h

theorem isEmpty_false_of_ne_nil (data : Bytes) (h : data ≠ []) :
    data.isEmpty = false := by
  cases data with
  | nil => exact absurd rfl h
  | cons b rest => rfl

theorem form_urlencoded_parse_eq_filter_map (input : Bytes) :
    form_urlencoded_parse input =
      ((splitSegments 38 input).filter (fun seg => !(seg == []))).map
        (fun seg => (form_decode (splitFirst 61 seg).1,
                     form_decode (splitFirst 61 seg).2)) := by
  unfold form_urlencoded_parse
  induction splitSegments 38 input with
  | nil => rfl
  | cons seg rest ih =>
    by_cases h : seg = []
    · subst h
      simpa [List.filterMap_cons, List.filter_cons] using ih
    · simp [List.filterMap_cons, List.filter_cons, h] at ih ⊢
      exact ih

/-- Claim C1: for every input on which decoding succeeds, no key appears
more than once in the resulting QueryMap, the values stored under any key
are exactly the values of that key's occurrences among the decoded pairs in
left-to-right order, and the grouping is the fold of the pairs in original
order (which never fails). -/
theorem decode_groups_keys_uniquely (data : Bytes) (m : QueryMap)
    (h : create_param_hashmap data = .ok m) :
    (keysOf m).Nodup ∧
    (∀ k, lookupVals m k = valuesOf k (form_urlencoded_parse (percent_decode data))) ∧
    m = (form_urlencoded_parse (percent_decode data)).foldl
          (fun acc kv => insertPair acc kv.1 kv.2) [] := by
  have hm := create_param_hashmap_ok_eq data m h
  subst hm
  refine ⟨?_, ?_, rfl⟩
  · exact nodup_keysOf_foldl_insertPair _ [] (by simp [keysOf])
  · intro k
    have hl := lookupVals_foldl_insertPair (form_urlencoded_parse (percent_decode data)) k []
    simpa [lookupVals] using hl

/-- Witness for C1 at the input a=1&a=2. -/
theorem decode_groups_keys_uniquely_witness :
    create_param_hashmap (strBytes "a=1&a=2") = .ok [([97], [[49], [50]])] ∧
    ((keysOf ([([97], [[49], [50]])] : QueryMap)).Nodup ∧
      (∀ k, lookupVals [([97], [[49], [50]])] k
          = valuesOf k (form_urlencoded_parse (percent_decode (strBytes "a=1&a=2")))) ∧
      ([([97], [[49], [50]])] : QueryMap) =
        (form_urlencoded_parse (percent_decode (strBytes "a=1&a=2"))).foldl
          (fun acc kv => insertPair acc kv.1 kv.2) []) :=
  ⟨rfl, decode_groups_keys_uniquely (strBytes "a=1&a=2") [([97], [[49], [50]])] rfl⟩

/-- Claim C2: the shared decode routine fails with EmptyQuery exactly on
the empty input, and query decoding with no query component present fails
with EmptyQuery. -/
theorem emptyQuery_iff_empty_input (data : Bytes) :
    (create_param_hashmap data = .error UrlDecodingError.EmptyQuery ↔ data = []) ∧
    urlEncodedQuery_eval none = .error UrlDecodingError.EmptyQuery := by
  refine ⟨⟨?_, ?_⟩, rfl⟩
  · intro h
    cases data with
    | nil => rfl
    | cons b rest =>
      have hne : ((b :: rest : Bytes)).isEmpty = false := rfl
      by_cases hv : validateUtf8 (percent_decode (b :: rest)) = true
      · simp [create_param_hashmap, hne, hv] at h
      · simp [create_param_hashmap, hne, hv] at h
  · intro h
    subst h
    rfl

/-- Witness for C2 at the empty input. -/
theorem emptyQuery_iff_empty_input_witness :
    create_param_hashmap [] = .error UrlDecodingError.EmptyQuery :=
  (emptyQuery_iff_empty_input []).1.mpr rfl

/-- Claim C3: on every non-empty input the shared decode routine fails with
MalformedQuery exactly when the percent-decoded bytes are not valid UTF-8,
and that is the only source of MalformedQuery. -/
theorem malformedQuery_iff_invalid_utf8 (data : Bytes) (h : data ≠ []) :
    create_param_hashmap data = .error UrlDecodingError.MalformedQuery ↔
      validateUtf8 (percent_decode data) = false := by
  have hne := isEmpty_false_of_ne_nil data h
  by_cases hv : validateUtf8 (percent_decode data) = true
  · simp [create_param_hashmap, hne, hv]
  · have hv2 : validateUtf8 (percent_decode data) = false := by
      cases hb : validateUtf8 (percent_decode data)
      · rfl
      · exact absurd hb hv
    simp [create_param_hashmap, hne, hv2]

/-- Witness for C3 at the input consisting of a lone escape of byte FF. -/
theorem malformedQuery_iff_invalid_utf8_witness :
    ([37, 70, 70] : Bytes) ≠ [] ∧
    create_param_hashmap [37, 70, 70] = .error UrlDecodingError.MalformedQuery :=
  ⟨by decide, (malformedQuery_iff_invalid_utf8 [37, 70, 70] (by decide)).mpr (by decide)⟩

/-- Claim C4: when the body-acquisition collaborator reports an extraction
failure, body decoding fails with BodyError wrapping that failure before any
decoding, and the cause accessor returns the wrapped failure. -/
theorem bodyError_wraps_cause (e : BodyparserError) :
    urlEncodedBody_eval (.error e) = .error (UrlDecodingError.BodyError e) ∧
    (UrlDecodingError.BodyError e).cause = some e :=
  ⟨rfl, rfl⟩

/-- Witness for C4 at a concrete collaborator failure. -/
theorem bodyError_wraps_cause_witness :
    urlEncodedBody_eval (.error ⟨5⟩) = .error (UrlDecodingError.BodyError ⟨5⟩) ∧
    (UrlDecodingError.BodyError ⟨5⟩).cause = some ⟨5⟩ :=
  bodyError_wraps_cause ⟨5⟩

/-- Claim C5: a successful extraction with no bytes (or no body at all) is
treated as the empty string and handed to the shared decode routine, so it
fails with EmptyQuery rather than a distinct no-body error. -/
theorem empty_body_decodes_as_emptyQuery :
    urlEncodedBody_eval (.ok none) = .error UrlDecodingError.EmptyQuery ∧
    urlEncodedBody_eval (.ok (some [])) = .error UrlDecodingError.EmptyQuery ∧
    ∀ body : Option Bytes,
      urlEncodedBody_eval (.ok body) = create_param_hashmap (body.getD []) :=
  ⟨rfl, rfl, fun _ => rfl⟩

/-- Claim C6: on every non-empty input whose percent-decoding is valid
UTF-8, the decoded pairs are obtained by splitting the decoded text on the
ampersand, dropping empty segments, splitting each segment at its first
equals sign (none giving an empty value), and decoding each part with plus
as space and percent-decoding; and an input of only delimiter bytes yields
an empty mapping as a success. -/
theorem decoded_pairs_pipeline :
    (∀ data : Bytes, data ≠ [] → validateUtf8 (percent_decode data) = true →
      create_param_hashmap data =
        .ok (combine_duplicates
          (((splitSegments 38 (percent_decode data)).filter (fun seg => !(seg == []))).map
            (fun seg => (form_decode (splitFirst 61 seg).1,
                         form_decode (splitFirst 61 seg).2))))) ∧
    create_param_hashmap (strBytes "&&&") = .ok [] := by
  refine ⟨?_, rfl⟩
  intro data h hv
  have hne := isEmpty_false_of_ne_nil data h
  rw [← form_urlencoded_parse_eq_filter_map]
  simp [create_param_hashmap, hne, hv]

/-- Witness for C6 at the input a. -/
theorem decoded_pairs_pipeline_witness :
    strBytes "a" ≠ [] ∧
    validateUtf8 (percent_decode (strBytes "a")) = true ∧
    create_param_hashmap (strBytes "a") =
      .ok (combine_duplicates
        (((splitSegments 38 (percent_decode (strBytes "a"))).filter (fun seg => !(seg == []))).map
          (fun seg => (form_decode (splitFirst 61 seg).1,
                       form_decode (splitFirst 61 seg).2)))) :=
  ⟨by decide, by decide, decoded_pairs_pipeline.1 (strBytes "a") (by decide) (by decide)⟩

/-- Claim C7: decoding band=arctic_monkeys&band=temper_trap&color=green
succeeds with exactly band mapped to the two band values in input order and
color mapped to green. -/
theorem duplicate_grouping_example :
    create_param_hashmap (strBytes "band=arctic_monkeys&band=temper_trap&color=green") =
      .ok [(strBytes "band", [strBytes "arctic_monkeys", strBytes "temper_trap"]),
           (strBytes "color", [strBytes "green"])] := rfl

/-- Claim C8: decoding band=arctic+monkeys&anotherband=temper+trap succeeds
with each literal plus replaced by a space. -/
theorem plus_as_space_example :
    create_param_hashmap (strBytes "band=arctic+monkeys&anotherband=temper+trap") =
      .ok [(strBytes "band", [strBytes "arctic monkeys"]),
           (strBytes "anotherband", [strBytes "temper trap"])] := rfl

/-- Claim C9: a percent sign not followed by two hex digits is passed
through literally by percent-decoding rather than failing, and a non-empty
input decodes successfully whenever its overall percent-decoded byte
sequence is valid UTF-8; at the input a=%zz the stray escape survives into
the value. -/
theorem stray_percent_passthrough :
    (∀ h l rest, (isHexDigit h && isHexDigit l) = false →
        percent_decode (37 :: h :: l :: rest) = 37 :: percent_decode (h :: l :: rest)) ∧
    (∀ b, percent_decode [37, b] = [37, b]) ∧
    percent_decode [37] = [37] ∧
    (∀ data : Bytes, data ≠ [] → validateUtf8 (percent_decode data) = true →
        ∃ m, create_param_hashmap data = .ok m) ∧
    create_param_hashmap (strBytes "a=%zz") = .ok [(strBytes "a", [strBytes "%zz"])] := by
  refine ⟨?_, ?_, rfl, ?_, rfl⟩
  · intro h l rest hfail
    show percentDecodeAux (37 :: h :: l :: rest).length (37 :: h :: l :: rest)
        = 37 :: percentDecodeAux (h :: l :: rest).length (h :: l :: rest)
    have hlen3 : (37 :: h :: l :: rest).length = rest.length + 3 := by
      simp [List.length_cons]
    have hlen2 : (h :: l :: rest).length = rest.length + 2 := by
      simp [List.length_cons]
    rw [hlen3, hlen2]
    simp [percentDecodeAux, hfail]
  · intro b
    rfl
  · intro data h hv
    have hne := isEmpty_false_of_ne_nil data h
    refine ⟨combine_duplicates (form_urlencoded_parse (percent_decode data)), ?_⟩
    simp [create_param_hashmap, hne, hv]

/-- Witness for C9 at the stray escape zz. -/
theorem stray_percent_passthrough_witness :
    (isHexDigit 122 && isHexDigit 122) = false ∧
    percent_decode [37, 122, 122] = 37 :: percent_decode [122, 122] :=
  ⟨by decide, stray_percent_passthrough.1 122 122 [] (by decide)⟩

/-- Claim C10: decoding is deterministic; running it twice on identical
bytes gives structurally equal results, through the shared routine, the
query entry point and the body entry point alike. -/
theorem decode_deterministic (d1 d2 : Bytes) (h : d1 = d2) :
    create_param_hashmap d1 = create_param_hashmap d2 ∧
    urlEncodedQuery_eval (some d1) = urlEncodedQuery_eval (some d2) ∧
    urlEncodedBody_eval (.ok (some d1)) = urlEncodedBody_eval (.ok (some d2)) := by
  subst h
  exact ⟨rfl, rfl, rfl⟩

/-- Witness for C10 at the input a=1. -/
theorem decode_deterministic_witness :
    create_param_hashmap (strBytes "a=1") = create_param_hashmap (strBytes "a=1") ∧
    urlEncodedQuery_eval (some (strBytes "a=1")) = urlEncodedQuery_eval (some (strBytes "a=1")) ∧
    urlEncodedBody_eval (.ok (some (strBytes "a=1")))
      = urlEncodedBody_eval (.ok (some (strBytes "a=1"))) :=
  decode_deterministic (strBytes "a=1") (strBytes "a=1") rfl

end Urlencoded
